import Mathlib

/-!
# Parameter-name checker (`src/param_check/ParameterNameChecker.cc`)

A shallow embedding of the clang plugin `check-parameter-names` and a
verification of its specification.

The plugin reads the host's declaration model (function declarations, their
parameters, the link to the previous declaration) and writes to the host's
diagnostic sink.  Both sides are embedded as plain data:

* a `FunctionDecl` carries `hasPrototype`, its ordered parameters and the link
  `getPreviousDecl` (absent for a first declaration);
* a `ParmVarDecl` carries its identifier (a null pointer in the source when the
  parameter is anonymous) and its location;
* the `DiagnosticsEngine` is the table of custom diagnostics registered so far
  together with the append-only list of reports.

Accesses that the source performs without a guard (`getParamDecl(i)`, the
dereference of `getIdentifier()`, `Report` with a diagnostic id) return
`Except Fault _`, so that their being in range is a theorem and not an
assumption.
-/

namespace ParamCheck

/-! ## Host data model -/

/-- Source location handed out by the host, kept as its raw encoding. -/
structure SourceLocation where
  raw : Nat
  deriving DecidableEq, Repr

/-- Severity of a diagnostic (`DiagnosticsEngine::Level`, the two used here). -/
inductive Level where
  | Warning
  | Note
  deriving DecidableEq, Repr

/-- Formal parameter.  `getIdentifier` is the interned identifier of the
parameter; identifiers are interned by the host, so the pointer comparison of
the source is the comparison of their text.  `none` is the null pointer of an
anonymous parameter. -/
structure ParmVarDecl where
  getIdentifier : Option String
  getLocation : SourceLocation
  deriving DecidableEq, Repr

/-- One declaration of a function, with the link to the nearest previous
declaration of the same function. -/
inductive FunctionDecl where
  | mk (hasPrototype : Bool) (params : List ParmVarDecl)
      (getPreviousDecl : Option FunctionDecl)

/-- Reported diagnostic: what reaches the host's sink. -/
structure Diagnostic where
  level : Level
  message : String
  location : SourceLocation
  deriving DecidableEq, Repr

/-- The host's diagnostic engine: registered custom diagnostics (the id of a
custom diagnostic is its position in the table) and the reports made so far,
oldest first. -/
structure DiagnosticsEngine where
  customDiags : List (Level × String)
  emitted : List Diagnostic
  deriving DecidableEq, Repr

/-- Ways in which an unguarded access of the source can go wrong. -/
inductive Fault where
  | paramIndexOutOfRange
  | nullIdentifier
  | unknownDiagID
  deriving DecidableEq, Repr

/-! ## Host accessors -/

/-- Accessor `FunctionDecl::hasPrototype()`. -/
def FunctionDecl.hasPrototype : FunctionDecl → Bool
  | .mk p _ _ => p

/-- Parameters of a declaration, in positional order. -/
def FunctionDecl.params : FunctionDecl → List ParmVarDecl
  | .mk _ ps _ => ps

/-- Accessor `FunctionDecl::getPreviousDecl()`; `none` is `nullptr`. -/
def FunctionDecl.getPreviousDecl : FunctionDecl → Option FunctionDecl
  | .mk _ _ prev => prev

/-- Accessor `FunctionDecl::getNumParams()`. -/
def FunctionDecl.getNumParams (fd : FunctionDecl) : Nat :=
  fd.params.length

/-- Accessor `FunctionDecl::getParamDecl(i)`: the host requires `i` to be below
`getNumParams()`. -/
def FunctionDecl.getParamDecl (fd : FunctionDecl) (i : Nat) : Except Fault ParmVarDecl :=
  match fd.params[i]? with
  | some p => .ok p
  | none => .error .paramIndexOutOfRange

/-- Accessor `NamedDecl::getName()`: the identifier text, empty when there is
no identifier. -/
def ParmVarDecl.getName (p : ParmVarDecl) : String :=
  match p.getIdentifier with
  | some s => s
  | none => ""

/-- The test `StringRef::empty()`. -/
def StringRef.empty (s : String) : Bool :=
  s.data.isEmpty

/-- The expression `II->getNameStart()[0]` on an identifier: its first
character, or the terminating NUL of an empty text. -/
def IdentifierInfo.getNameStart0 (s : String) : Char :=
  match s.data with
  | c :: _ => c
  | [] => Char.ofNat 0

/-- The expression `p->getIdentifier()->getNameStart()[0]`: dereferences the
identifier pointer, which is null for an anonymous parameter. -/
def ParmVarDecl.firstChar (p : ParmVarDecl) : Except Fault Char :=
  match p.getIdentifier with
  | some s => .ok (IdentifierInfo.getNameStart0 s)
  | none => .error .nullIdentifier

/-- The call `DiagnosticsEngine::getCustomDiagID(level, message)`: the id
already registered for this level and message, or a fresh one. -/
def DiagnosticsEngine.getCustomDiagID (d : DiagnosticsEngine) (level : Level)
    (message : String) : Nat × DiagnosticsEngine :=
  let id := d.customDiags.findIdx (fun entry => decide (entry = (level, message)))
  if id < d.customDiags.length then (id, d)
  else (id, { d with customDiags := d.customDiags ++ [(level, message)] })

/-- The call `DiagnosticsEngine::Report(loc, id)`: the diagnostic registered
under `id` is reported at `loc`. -/
def DiagnosticsEngine.Report (d : DiagnosticsEngine) (loc : SourceLocation) (id : Nat) :
    Except Fault DiagnosticsEngine :=
  match d.customDiags[id]? with
  | some (level, message) =>
      .ok { d with emitted := d.emitted ++ [⟨level, message, loc⟩] }
  | none => .error .unknownDiagID

/-! ## `FuncDeclVisitor` -/

/-- Body of the `for` loop of `VisitFunctionDecl` (source lines 41-70) at
index `i`, on the engine `m_diag`. -/
def checkParam (m_diag : DiagnosticsEngine) (funcDecl prevDecl : FunctionDecl) (i : Nat) :
    Except Fault DiagnosticsEngine :=
  match funcDecl.getParamDecl i with
  | .error f => .error f
  | .ok paramDecl =>
    -- Anonymous parameters are OK.
    if StringRef.empty paramDecl.getName then .ok m_diag
    else
      match prevDecl.getParamDecl i with
      | .error f => .error f
      | .ok previousParamDecl =>
        -- Anonymous parameters are OK.
        if StringRef.empty previousParamDecl.getName then .ok m_diag
        else
          match paramDecl.firstChar with
          | .error f => .error f
          | .ok c =>
            -- `||` evaluates its right operand only when the left one is false
            if c = '_' then .ok m_diag
            else
              match previousParamDecl.firstChar with
              | .error f => .error f
              | .ok pc =>
                if pc = '_' then .ok m_diag
                else if paramDecl.getIdentifier = previousParamDecl.getIdentifier then
                  .ok m_diag
                else
                  let (warn, d1) := m_diag.getCustomDiagID .Warning "parameter name mismatch"
                  match d1.Report paramDecl.getLocation warn with
                  | .error f => .error f
                  | .ok d2 =>
                    let (note, d3) := d2.getCustomDiagID .Note
                      "parameter in previous function declaration was here"
                    d3.Report previousParamDecl.getLocation note

/-- The loop `for (unsigned i = 0; i != funcDecl->getNumParams(); ++i)` with
`remaining` iterations left, the next one at index `i`. -/
def forParams (funcDecl prevDecl : FunctionDecl) :
    Nat → Nat → DiagnosticsEngine → Except Fault DiagnosticsEngine
  | 0, _, m_diag => .ok m_diag
  | remaining + 1, i, m_diag =>
    match checkParam m_diag funcDecl prevDecl i with
    | .error f => .error f
    | .ok d => forParams funcDecl prevDecl remaining (i + 1) d

/-- The method `FuncDeclVisitor::VisitFunctionDecl`: the returned flag is the
traversal signal, the engine is `m_diag` after the visit. -/
def VisitFunctionDecl (m_diag : DiagnosticsEngine) (funcDecl : FunctionDecl) :
    Except Fault (Bool × DiagnosticsEngine) :=
  -- If has no prototype we cannot make the check.
  if !funcDecl.hasPrototype then .ok (true, m_diag)
  else
    match funcDecl.getPreviousDecl with
    -- If no previous function declaration we are OK.
    | none => .ok (true, m_diag)
    | some prevDecl =>
      -- If previous declaration has no prototype, we can't compare them.
      if !prevDecl.hasPrototype then .ok (true, m_diag)
      else
        match forParams funcDecl prevDecl funcDecl.getNumParams 0 m_diag with
        | .error f => .error f
        | .ok d => .ok (true, d)

/-- Declaration node of the host's tree as the traversal sees it: a function
declaration (of any kind) or another declaration, each with the declarations
nested in it. -/
inductive Decl where
  | function (fd : FunctionDecl) (children : List Decl)
  | other (children : List Decl)

mutual
/-- Modelled from the spec: `RecursiveASTVisitor::TraverseDecl` is the host
library's and is inherited, not defined, by `FuncDeclVisitor`.  It walks the
tree in pre-order, depth first, calls `VisitFunctionDecl` on every function
declaration before its descendants, and gives up as soon as a visit returns
`false`. -/
def TraverseDecl : Decl → DiagnosticsEngine → Except Fault (Bool × DiagnosticsEngine)
  | .function fd children, m_diag =>
    match VisitFunctionDecl m_diag fd with
    | .error f => .error f
    | .ok (false, d) => .ok (false, d)
    | .ok (true, d) => TraverseDecls children d
  | .other children, m_diag => TraverseDecls children m_diag
/-- Modelled from the spec: the traversal of the children of a node, in
order, part of the host library's `RecursiveASTVisitor`. -/
def TraverseDecls : List Decl → DiagnosticsEngine → Except Fault (Bool × DiagnosticsEngine)
  | [], m_diag => .ok (true, m_diag)
  | c :: cs, m_diag =>
    match TraverseDecl c m_diag with
    | .error f => .error f
    | .ok (false, d) => .ok (false, d)
    | .ok (true, d) => TraverseDecls cs d
end

/-! ## `FuncDeclConsumer` -/

/-- The method `FuncDeclConsumer::HandleTopLevelDecl` on the declaration
group `dg`: every declaration of the group is traversed, the signal of the
traversal is dropped, and the parser is told to continue. -/
def HandleTopLevelDecl (m_diag : DiagnosticsEngine) :
    List Decl → Except Fault (Bool × DiagnosticsEngine)
  | [] => .ok (true, m_diag)
  | i :: rest =>
    match TraverseDecl i m_diag with
    | .error f => .error f
    | .ok (_, d) => HandleTopLevelDecl d rest

/-! ## Reference definitions (from the specification's wording) -/

/-- The two reports of one mismatch: the warning at the parameter of the
declaration, then the note at the parameter of the previous declaration. -/
def mismatchReports (dParam pParam : ParmVarDecl) : List Diagnostic :=
  [⟨.Warning, "parameter name mismatch", dParam.getLocation⟩,
   ⟨.Note, "parameter in previous function declaration was here", pParam.getLocation⟩]

/-- The name begins with the exemption marker, a leading underscore. -/
def startsWithUnderscore (name : String) : Prop :=
  name.data.head? = some '_'

instance (name : String) : Decidable (startsWithUnderscore name) :=
  inferInstanceAs (Decidable (name.data.head? = some '_'))

/-- The mismatch rule of the specification on one pair of parameters: both
names present, neither begins with an underscore, and the names differ. -/
def namesMismatch (dParam pParam : ParmVarDecl) : Prop :=
  StringRef.empty dParam.getName = false ∧ StringRef.empty pParam.getName = false ∧
  ¬ startsWithUnderscore dParam.getName ∧ ¬ startsWithUnderscore pParam.getName ∧
  dParam.getName ≠ pParam.getName

instance (dParam pParam : ParmVarDecl) : Decidable (namesMismatch dParam pParam) :=
  inferInstanceAs (Decidable (_ ∧ _ ∧ _ ∧ _ ∧ _))

/-- What the specification reports for one pair of parameters. -/
def expectedReports (dParam pParam : ParmVarDecl) : List Diagnostic :=
  if namesMismatch dParam pParam then mismatchReports dParam pParam else []

/-- What the specification reports at index `i` of a declaration and its
previous declaration; nothing where either side has no parameter. -/
def expectedAt (D P : FunctionDecl) (i : Nat) : List Diagnostic :=
  match D.params[i]?, P.params[i]? with
  | some dParam, some pParam => expectedReports dParam pParam
  | _, _ => []

/-- Index `i` can be compared without an access out of range: a named
parameter of the declaration at `i` has a counterpart in the previous
declaration. -/
def indexInRange (D P : FunctionDecl) (i : Nat) : Prop :=
  ∀ dParam, D.params[i]? = some dParam → StringRef.empty dParam.getName = false →
    i < P.getNumParams

instance (D P : FunctionDecl) (i : Nat) : Decidable (indexInRange D P i) :=
  decidable_of_iff
    (∀ dParam ∈ D.params[i]?, StringRef.empty dParam.getName = false → i < P.getNumParams)
    (by simp [indexInRange, Option.mem_def])

/-- Every comparison the visit of `D` makes stays in range: when `D` and its
previous declaration both have a prototype, every index of `D` is in range. -/
def declInRange (D : FunctionDecl) : Prop :=
  D.hasPrototype = true → ∀ P, D.getPreviousDecl = some P → P.hasPrototype = true →
    ∀ i, i < D.getNumParams → indexInRange D P i

instance (D : FunctionDecl) : Decidable (declInRange D) :=
  decidable_of_iff
    (D.hasPrototype = true → ∀ P ∈ D.getPreviousDecl, P.hasPrototype = true →
      ∀ i, i < D.getNumParams → indexInRange D P i)
    (by simp [declInRange, Option.mem_def])

/-- What the specification reports for the visit of `D`: nothing unless `D`
and its previous declaration both have a prototype, and otherwise the expected
reports of every index of `D`, in ascending order. -/
def expectedOutput (D : FunctionDecl) : List Diagnostic :=
  if D.hasPrototype then
    match D.getPreviousDecl with
    | none => []
    | some P =>
      if P.hasPrototype then (List.range D.getNumParams).flatMap (expectedAt D P) else []
  else []

mutual
/-- The function declarations reachable from a declaration, itself included,
in pre-order, depth first. -/
def Decl.functionDecls : Decl → List FunctionDecl
  | .function fd children => fd :: functionDeclsOfList children
  | .other children => functionDeclsOfList children
/-- The function declarations reachable from a sequence of declarations, in
the order of the sequence and in pre-order below each of its members. -/
def functionDeclsOfList : List Decl → List FunctionDecl
  | [] => []
  | c :: cs => c.functionDecls ++ functionDeclsOfList cs
end

/-- The comparison engine run on each declaration of a sequence in turn, on
the engine left by the one before; the signals are dropped. -/
def compareAll : List FunctionDecl → DiagnosticsEngine → Except Fault DiagnosticsEngine
  | [], m_diag => .ok m_diag
  | fd :: rest, m_diag =>
    match VisitFunctionDecl m_diag fd with
    | .error f => .error f
    | .ok (_, d) => compareAll rest d

/-- An engine on which nothing was registered or reported. -/
def freshEngine : DiagnosticsEngine := ⟨[], []⟩

/-- The diagnostics the comparison engine emits for one declaration: those of
its visit on an engine that has reported nothing. -/
def diagnosticsOf (fd : FunctionDecl) : List Diagnostic :=
  match VisitFunctionDecl freshEngine fd with
  | .ok (_, d) => d.emitted
  | .error _ => []

/-! ## Declarations of the specification's scenarios -/

/-- Parameter named `name` at the location `loc`. -/
def named (name : String) (loc : Nat) : ParmVarDecl := ⟨some name, ⟨loc⟩⟩

/-- Anonymous parameter at the location `loc`. -/
def anonymous (loc : Nat) : ParmVarDecl := ⟨none, ⟨loc⟩⟩

/-- Scenario 2, `void f(int a);`. -/
def scenario2First : FunctionDecl := .mk true [named "a" 11] none

/-- Scenario 2, `void f(int b) { }`, after `void f(int a);`. -/
def scenario2Second : FunctionDecl := .mk true [named "b" 21] (some scenario2First)

/-- Scenario 1, `void f(int a);`. -/
def scenario1First : FunctionDecl := .mk true [named "a" 11] none

/-- Scenario 1, `void f(int a) { }`, after `void f(int a);`. -/
def scenario1Second : FunctionDecl := .mk true [named "a" 21] (some scenario1First)

/-- Scenario 3, `void f(int _a);`. -/
def scenario3First : FunctionDecl := .mk true [named "_a" 11] none

/-- Scenario 3, `void f(int _b) { }`, after `void f(int _a);`. -/
def scenario3Second : FunctionDecl := .mk true [named "_b" 21] (some scenario3First)

/-- Scenario 4, `void f(int);`. -/
def scenario4First : FunctionDecl := .mk true [anonymous 11] none

/-- Scenario 4, `void f(int x) { }`, after `void f(int);`. -/
def scenario4Second : FunctionDecl := .mk true [named "x" 21] (some scenario4First)

/-- Scenario 5, `void f(int a);`. -/
def scenario5First : FunctionDecl := .mk true [named "a" 11] none

/-- Scenario 5, the second declaration `void f(int b);`. -/
def scenario5Second : FunctionDecl := .mk true [named "b" 21] (some scenario5First)

/-- Scenario 5, the third declaration `void f(int b) { }`. -/
def scenario5Third : FunctionDecl := .mk true [named "b" 31] (some scenario5Second)

/-- A third declaration `void f(int a) { }` after those of scenario 5: its
name is that of the first declaration and not that of the second. -/
def chainThirdA : FunctionDecl := .mk true [named "a" 31] (some scenario5Second)

/-- Group of the three declarations of scenario 5, at top level. -/
def scenario5Group : List Decl :=
  [.function scenario5First [], .function scenario5Second [], .function scenario5Third []]

/-- The three declarations of scenario 5 inside nested declarations, as
inside namespaces or classes, the third below the second. -/
def scenario5Nested : List Decl :=
  [.other [.function scenario5First [], .other [.function scenario5Second
    [.function scenario5Third []]]]]

/-- A declaration with one named parameter whose previous declaration has a
prototype and no parameter. -/
def extraParamDecl : FunctionDecl := .mk true [named "x" 21] (some (.mk true [] none))

/-- Scenario 6, `void f(int a, int b);`. -/
def scenario6First : FunctionDecl := .mk true [named "a" 11, named "b" 12] none

/-- Scenario 6, `void f(int a, int c) { }`, after `void f(int a, int b);`. -/
def scenario6Second : FunctionDecl :=
  .mk true [named "a" 21, named "c" 22] (some scenario6First)

/-- The mismatch rule of the specification holds at index `i` of a
declaration and its previous declaration. -/
def mismatchAt (D P : FunctionDecl) (i : Nat) : Bool :=
  match D.params[i]?, P.params[i]? with
  | some dParam, some pParam => decide (namesMismatch dParam pParam)
  | _, _ => false

/-- The declaration `D` linked to `P` as its previous declaration. -/
def withPrevious (D P : FunctionDecl) : FunctionDecl :=
  .mk D.hasPrototype D.params (some P)

/-- The reports taken two by two, with the locations of the two members of
each pair exchanged. -/
def exchangeLocations : List Diagnostic → List Diagnostic
  | w :: n :: rest =>
    ⟨w.level, w.message, n.location⟩ :: ⟨n.level, n.message, w.location⟩ ::
      exchangeLocations rest
  | rest => rest

/-! ## The diagnostic engine -/

theorem getCustomDiagID_emitted (d : DiagnosticsEngine) (level : Level) (message : String) :
    (d.getCustomDiagID level message).2.emitted = d.emitted := by
  simp only [DiagnosticsEngine.getCustomDiagID]
  split <;> rfl

theorem getCustomDiagID_registered (d : DiagnosticsEngine) (level : Level) (message : String) :
    (d.getCustomDiagID level message).2.customDiags[(d.getCustomDiagID level message).1]?
      = some (level, message) := by
  simp only [DiagnosticsEngine.getCustomDiagID]
  split
  · next h =>
    have hp := List.findIdx_getElem (w := h)
    rw [List.getElem?_eq_getElem h]
    simpa using hp
  · next h =>
    have hlen := le_antisymm (List.findIdx_le_length _) (not_lt.1 h)
    simp [hlen]

/-- Reporting a diagnostic that was just registered succeeds and appends
exactly that diagnostic. -/
theorem report_registered (d : DiagnosticsEngine) (level : Level) (message : String)
    (loc : SourceLocation) :
    ∃ d', (d.getCustomDiagID level message).2.Report loc
        (d.getCustomDiagID level message).1 = .ok d' ∧
      d'.emitted = d.emitted ++ [⟨level, message, loc⟩] := by
  have hreg := getCustomDiagID_registered d level message
  have hem := getCustomDiagID_emitted d level message
  unfold DiagnosticsEngine.Report
  rw [hreg]
  exact ⟨_, rfl, by simp [hem]⟩

/-! ## Names and first characters -/

theorem getNameStart0_eq_underscore (s : String) :
    IdentifierInfo.getNameStart0 s = '_' ↔ startsWithUnderscore s := by
  unfold IdentifierInfo.getNameStart0 startsWithUnderscore
  cases h : s.data with
  | nil => simp
  | cons c cs => simp

/-- A parameter with a non-empty name has an identifier, so that the
dereference of `getIdentifier()` is defined. -/
theorem firstChar_of_named (p : ParmVarDecl) (h : StringRef.empty p.getName = false) :
    p.firstChar = .ok (IdentifierInfo.getNameStart0 p.getName) := by
  unfold ParmVarDecl.firstChar
  unfold ParmVarDecl.getName at h ⊢
  cases hid : p.getIdentifier with
  | none => rw [hid] at h; simp [StringRef.empty] at h
  | some s => rfl

theorem getIdentifier_eq_iff_of_named (p q : ParmVarDecl)
    (hp : StringRef.empty p.getName = false) (hq : StringRef.empty q.getName = false) :
    p.getIdentifier = q.getIdentifier ↔ p.getName = q.getName := by
  unfold ParmVarDecl.getName at hp hq ⊢
  cases hpi : p.getIdentifier with
  | none => rw [hpi] at hp; simp [StringRef.empty] at hp
  | some s =>
    cases hqi : q.getIdentifier with
    | none => rw [hqi] at hq; simp [StringRef.empty] at hq
    | some t => simp

/-! ## One iteration of the loop -/

theorem getParamDecl_of_getElem? (fd : FunctionDecl) (i : Nat) (p : ParmVarDecl)
    (h : fd.params[i]? = some p) : fd.getParamDecl i = .ok p := by
  unfold FunctionDecl.getParamDecl; rw [h]

theorem getParamDecl_of_le (fd : FunctionDecl) (i : Nat) (h : fd.getNumParams ≤ i) :
    fd.getParamDecl i = .error .paramIndexOutOfRange := by
  unfold FunctionDecl.getParamDecl
  rw [List.getElem?_eq_none (by simpa [FunctionDecl.getNumParams] using h)]

/-- An anonymous parameter of the declaration ends the iteration before the
previous declaration is looked at. -/
theorem checkParam_anonymous (m_diag : DiagnosticsEngine) (D P : FunctionDecl) (i : Nat)
    (dParam : ParmVarDecl) (hd : D.params[i]? = some dParam)
    (hempty : StringRef.empty dParam.getName = true) :
    checkParam m_diag D P i = .ok m_diag := by
  unfold checkParam
  rw [getParamDecl_of_getElem? D i dParam hd]
  simp [hempty]

/-- A named parameter facing a previous declaration that has no parameter at
this index: the access of the source is out of range. -/
theorem checkParam_out_of_range (m_diag : DiagnosticsEngine) (D P : FunctionDecl) (i : Nat)
    (dParam : ParmVarDecl) (hd : D.params[i]? = some dParam)
    (hnamed : StringRef.empty dParam.getName = false) (hp : P.getNumParams ≤ i) :
    checkParam m_diag D P i = .error .paramIndexOutOfRange := by
  unfold checkParam
  rw [getParamDecl_of_getElem? D i dParam hd, getParamDecl_of_le P i hp]
  simp [hnamed]

/-- No mismatch on the pair: the iteration leaves the engine as it found it. -/
theorem checkParam_of_not_mismatch (m_diag : DiagnosticsEngine) (D P : FunctionDecl) (i : Nat)
    (dParam pParam : ParmVarDecl) (hd : D.params[i]? = some dParam)
    (hp : P.params[i]? = some pParam) (h : ¬ namesMismatch dParam pParam) :
    checkParam m_diag D P i = .ok m_diag := by
  unfold checkParam
  rw [getParamDecl_of_getElem? D i dParam hd, getParamDecl_of_getElem? P i pParam hp]
  by_cases hde : StringRef.empty dParam.getName = true
  · simp [hde]
  by_cases hpe : StringRef.empty pParam.getName = true
  · simp [hde, hpe]
  have hde' : StringRef.empty dParam.getName = false := by simpa using hde
  have hpe' : StringRef.empty pParam.getName = false := by simpa using hpe
  simp only [hde', hpe', firstChar_of_named, Bool.false_eq_true, if_false]
  by_cases hdu : IdentifierInfo.getNameStart0 dParam.getName = '_'
  · simp [hdu]
  by_cases hpu : IdentifierInfo.getNameStart0 pParam.getName = '_'
  · simp [hdu, hpu]
  have hsame : dParam.getIdentifier = pParam.getIdentifier := by
    rw [getIdentifier_eq_iff_of_named dParam pParam hde' hpe']
    by_contra hne
    exact h ⟨hde', hpe', fun hu => hdu ((getNameStart0_eq_underscore _).2 hu),
      fun hu => hpu ((getNameStart0_eq_underscore _).2 hu), hne⟩
  simp [hdu, hpu, hsame]

/-- A mismatch on the pair: the iteration succeeds and appends the warning
and the note, in this order, and nothing else. -/
theorem checkParam_of_mismatch (m_diag : DiagnosticsEngine) (D P : FunctionDecl) (i : Nat)
    (dParam pParam : ParmVarDecl) (hd : D.params[i]? = some dParam)
    (hp : P.params[i]? = some pParam) (h : namesMismatch dParam pParam) :
    ∃ d', checkParam m_diag D P i = .ok d' ∧
      d'.emitted = m_diag.emitted ++ mismatchReports dParam pParam := by
  obtain ⟨hde, hpe, hdu, hpu, hne⟩ := h
  have hdu' : ¬ IdentifierInfo.getNameStart0 dParam.getName = '_' :=
    fun hu => hdu ((getNameStart0_eq_underscore _).1 hu)
  have hpu' : ¬ IdentifierInfo.getNameStart0 pParam.getName = '_' :=
    fun hu => hpu ((getNameStart0_eq_underscore _).1 hu)
  have hdiff : ¬ dParam.getIdentifier = pParam.getIdentifier := by
    rw [getIdentifier_eq_iff_of_named dParam pParam hde hpe]; exact hne
  obtain ⟨d2, hr1, he1⟩ := report_registered m_diag .Warning "parameter name mismatch"
    dParam.getLocation
  obtain ⟨d4, hr2, he2⟩ := report_registered d2 .Note
    "parameter in previous function declaration was here" pParam.getLocation
  refine ⟨d4, ?_, ?_⟩
  · unfold checkParam
    rw [getParamDecl_of_getElem? D i dParam hd, getParamDecl_of_getElem? P i pParam hp]
    simp only [hde, hpe, firstChar_of_named, Bool.false_eq_true, if_false, hdu', hpu', hdiff]
    rw [hr1]
    simp only []
    rw [hr2]
  · rw [he2, he1]; simp [mismatchReports]

/-- Both parameters in range: the iteration succeeds and appends what the
specification expects for the pair. -/
theorem checkParam_spec (m_diag : DiagnosticsEngine) (D P : FunctionDecl) (i : Nat)
    (dParam pParam : ParmVarDecl) (hd : D.params[i]? = some dParam)
    (hp : P.params[i]? = some pParam) :
    ∃ d', checkParam m_diag D P i = .ok d' ∧
      d'.emitted = m_diag.emitted ++ expectedReports dParam pParam := by
  unfold expectedReports
  by_cases h : namesMismatch dParam pParam
  · simpa [h] using checkParam_of_mismatch m_diag D P i dParam pParam hd hp h
  · exact ⟨m_diag, checkParam_of_not_mismatch m_diag D P i dParam pParam hd hp h, by simp [h]⟩

/-- An iteration whose accesses are in range succeeds and appends what the
specification expects at this index. -/
theorem checkParam_in_range (m_diag : DiagnosticsEngine) (D P : FunctionDecl) (i : Nat)
    (hi : i < D.getNumParams) (hsafe : indexInRange D P i) :
    ∃ d', checkParam m_diag D P i = .ok d' ∧
      d'.emitted = m_diag.emitted ++ expectedAt D P i := by
  have hi' : i < D.params.length := hi
  have hd : D.params[i]? = some D.params[i] := List.getElem?_eq_getElem hi'
  by_cases hempty : StringRef.empty (D.params[i]).getName = true
  · refine ⟨m_diag, checkParam_anonymous m_diag D P i _ hd hempty, ?_⟩
    unfold expectedAt
    rw [hd]
    cases P.params[i]? with
    | none => simp
    | some pParam => simp [expectedReports, namesMismatch, hempty]
  · have hnamed : StringRef.empty (D.params[i]).getName = false := by simpa using hempty
    have hpi : i < P.params.length := hsafe _ hd hnamed
    have hp : P.params[i]? = some P.params[i] := List.getElem?_eq_getElem hpi
    obtain ⟨d', hok, hem⟩ := checkParam_spec m_diag D P i _ _ hd hp
    refine ⟨d', hok, ?_⟩
    unfold expectedAt
    rw [hd, hp]
    exact hem

/-- An iteration with an access out of range stops with that fault. -/
theorem checkParam_not_in_range (m_diag : DiagnosticsEngine) (D P : FunctionDecl) (i : Nat)
    (hsafe : ¬ indexInRange D P i) :
    checkParam m_diag D P i = .error .paramIndexOutOfRange := by
  unfold indexInRange at hsafe
  push_neg at hsafe
  obtain ⟨dParam, hd, hnamed, hle⟩ := hsafe
  exact checkParam_out_of_range m_diag D P i dParam hd hnamed hle

/-! ## The loop -/

theorem forParams_add (D P : FunctionDecl) (a b i : Nat) (m_diag : DiagnosticsEngine) :
    forParams D P (a + b) i m_diag =
      match forParams D P a i m_diag with
      | .error f => .error f
      | .ok d => forParams D P b (i + a) d := by
  induction a generalizing i m_diag with
  | zero => simp [forParams]
  | succ a ih =>
    rw [Nat.succ_add]
    simp only [forParams]
    cases checkParam m_diag D P i with
    | error f => rfl
    | ok d =>
      simp only []
      rw [ih (i + 1) d, Nat.add_assoc, Nat.add_comm 1 a]

/-- The loop over indices that are all in range succeeds, and appends the
expected reports index by index, in ascending order. -/
theorem forParams_in_range (D P : FunctionDecl) (k i : Nat) (m_diag : DiagnosticsEngine)
    (hk : i + k ≤ D.getNumParams)
    (hsafe : ∀ j, i ≤ j → j < i + k → indexInRange D P j) :
    ∃ d', forParams D P k i m_diag = .ok d' ∧
      d'.emitted = m_diag.emitted ++ (List.range' i k).flatMap (expectedAt D P) := by
  induction k generalizing i m_diag with
  | zero => exact ⟨m_diag, rfl, by simp⟩
  | succ k ih =>
    obtain ⟨d1, h1, e1⟩ := checkParam_in_range m_diag D P i (by omega)
      (hsafe i (le_refl i) (by omega))
    obtain ⟨d2, h2, e2⟩ := ih (i + 1) d1 (by omega)
      (fun j hj1 hj2 => hsafe j (by omega) (by omega))
    refine ⟨d2, ?_, ?_⟩
    · simp only [forParams, h1]; exact h2
    · rw [e2, e1, List.range'_succ]; simp [List.flatMap]

/-- The loop fails only by an access out of range, at an index that is not
in range. -/
theorem forParams_error (D P : FunctionDecl) (k i : Nat) (m_diag : DiagnosticsEngine)
    (f : Fault) (hk : i + k ≤ D.getNumParams) (h : forParams D P k i m_diag = .error f) :
    f = .paramIndexOutOfRange ∧ ∃ j, i ≤ j ∧ j < i + k ∧ ¬ indexInRange D P j := by
  induction k generalizing i m_diag with
  | zero => simp [forParams] at h
  | succ k ih =>
    by_cases hsafe : indexInRange D P i
    · obtain ⟨d1, h1, _⟩ := checkParam_in_range m_diag D P i (by omega) hsafe
      simp only [forParams, h1] at h
      obtain ⟨hf, j, hj1, hj2, hj3⟩ := ih (i + 1) d1 (by omega) h
      exact ⟨hf, j, by omega, by omega, hj3⟩
    · have h1 := checkParam_not_in_range m_diag D P i hsafe
      simp only [forParams, h1] at h
      exact ⟨by injection h with h; exact h.symm, i, le_refl i, by omega, hsafe⟩

/-! ## The visit of one declaration -/

/-- With a prototype on both sides the visit is the loop over the parameters
of the declaration. -/
theorem VisitFunctionDecl_compare (m_diag : DiagnosticsEngine) (D P : FunctionDecl)
    (hD : D.hasPrototype = true) (hprev : D.getPreviousDecl = some P)
    (hP : P.hasPrototype = true) :
    VisitFunctionDecl m_diag D =
      match forParams D P D.getNumParams 0 m_diag with
      | .error f => .error f
      | .ok d => .ok (true, d) := by
  unfold VisitFunctionDecl
  simp [hD, hprev, hP]

/-- A visit whose comparisons are in range returns the continue signal and
appends the expected output. -/
theorem VisitFunctionDecl_in_range (m_diag : DiagnosticsEngine) (D : FunctionDecl)
    (h : declInRange D) :
    ∃ d', VisitFunctionDecl m_diag D = .ok (true, d') ∧
      d'.emitted = m_diag.emitted ++ expectedOutput D := by
  unfold expectedOutput
  by_cases hD : D.hasPrototype = true
  · cases hprev : D.getPreviousDecl with
    | none => exact ⟨m_diag, by simp [VisitFunctionDecl, hD, hprev], by simp [hD]⟩
    | some P =>
      by_cases hP : P.hasPrototype = true
      · obtain ⟨d', hok, hem⟩ := forParams_in_range D P D.getNumParams 0 m_diag (by omega)
          (fun j _ hj => h hD P hprev hP j (by omega))
        refine ⟨d', ?_, ?_⟩
        · rw [VisitFunctionDecl_compare m_diag D P hD hprev hP, hok]
        · simp only [hD, hP, if_true]
          rw [hem, List.range_eq_range']
      · exact ⟨m_diag, by simp [VisitFunctionDecl, hD, hprev, hP], by simp [hD, hP]⟩
  · exact ⟨m_diag, by simp [VisitFunctionDecl, hD], by simp [hD]⟩

/-- A visit fails only by an access out of range, and only when some
comparison is not in range. -/
theorem VisitFunctionDecl_error (m_diag : DiagnosticsEngine) (D : FunctionDecl) (f : Fault)
    (h : VisitFunctionDecl m_diag D = .error f) :
    f = .paramIndexOutOfRange ∧ ¬ declInRange D := by
  by_cases hD : D.hasPrototype = true
  · cases hprev : D.getPreviousDecl with
    | none => simp [VisitFunctionDecl, hD, hprev] at h
    | some P =>
      by_cases hP : P.hasPrototype = true
      · rw [VisitFunctionDecl_compare m_diag D P hD hprev hP] at h
        cases hloop : forParams D P D.getNumParams 0 m_diag with
        | ok d => rw [hloop] at h; simp at h
        | error g =>
          rw [hloop] at h
          have hfg : g = f := by injection h
          obtain ⟨hg, j, _, hj, hbad⟩ := forParams_error D P D.getNumParams 0 m_diag g
            (by omega) hloop
          exact ⟨hfg ▸ hg, fun hall => hbad (hall hD P hprev hP j (by omega))⟩
      · simp [VisitFunctionDecl, hD, hprev, hP] at h
  · simp [VisitFunctionDecl, hD] at h

/-- The loop fails as soon as one of its indices is not in range. -/
theorem forParams_not_in_range (D P : FunctionDecl) (k i : Nat) (m_diag : DiagnosticsEngine)
    (hk : i + k ≤ D.getNumParams) (j : Nat) (hij : i ≤ j) (hjk : j < i + k)
    (hbad : ¬ indexInRange D P j) :
    forParams D P k i m_diag = .error .paramIndexOutOfRange := by
  induction k generalizing i m_diag with
  | zero => omega
  | succ k ih =>
    by_cases hsafe : indexInRange D P i
    · obtain ⟨d1, h1, _⟩ := checkParam_in_range m_diag D P i (by omega) hsafe
      have hne : i ≠ j := fun h => hbad (h ▸ hsafe)
      simp only [forParams, h1]
      exact ih (i + 1) d1 (by omega) (by omega) (by omega)
    · simp only [forParams, checkParam_not_in_range m_diag D P i hsafe]

/-- A visit with a comparison out of range fails. -/
theorem VisitFunctionDecl_not_in_range (m_diag : DiagnosticsEngine) (D : FunctionDecl)
    (h : ¬ declInRange D) :
    VisitFunctionDecl m_diag D = .error .paramIndexOutOfRange := by
  unfold declInRange at h
  push_neg at h
  obtain ⟨hD, P, hprev, hP, j, hj, hbad⟩ := h
  rw [VisitFunctionDecl_compare m_diag D P hD hprev hP,
    forParams_not_in_range D P D.getNumParams 0 m_diag (by omega) j (by omega) (by omega) hbad]

/-- A visit that returns has returned the continue signal and has appended
the expected output. -/
theorem VisitFunctionDecl_ok (m_diag : DiagnosticsEngine) (D : FunctionDecl) (b : Bool)
    (final : DiagnosticsEngine) (h : VisitFunctionDecl m_diag D = .ok (b, final)) :
    b = true ∧ final.emitted = m_diag.emitted ++ expectedOutput D ∧ declInRange D := by
  by_cases hr : declInRange D
  · obtain ⟨d', hok, hem⟩ := VisitFunctionDecl_in_range m_diag D hr
    rw [hok] at h
    injection h with h
    injection h with h1 h2
    exact ⟨h1.symm, h2 ▸ hem, hr⟩
  · rw [VisitFunctionDecl_not_in_range m_diag D hr] at h
    cases h

theorem flatMap_filter_ne {α : Type} (f : Nat → List α) (i : Nat) (hf : f i = [])
    (l : List Nat) :
    (l.filter (fun j => decide (j ≠ i))).flatMap f = l.flatMap f := by
  induction l with
  | nil => rfl
  | cons a l ih =>
    by_cases ha : a = i
    · subst ha
      rw [List.filter_cons_of_neg (by simp), List.flatMap_cons, hf, List.nil_append]
      exact ih
    · rw [List.filter_cons_of_pos (by simpa using ha), List.flatMap_cons, List.flatMap_cons, ih]

/-- An index whose pair of parameters does not mismatch is passed over: the
iteration leaves the engine untouched, the loop goes on to the next index with
the same engine, and the output of a visit is made of the reports of the other
indices. -/
theorem exempt_index (m_diag : DiagnosticsEngine) (D P : FunctionDecl) (i : Nat)
    (dParam pParam : ParmVarDecl) (hprev : D.getPreviousDecl = some P)
    (hd : D.params[i]? = some dParam) (hp : P.params[i]? = some pParam)
    (h : ¬ namesMismatch dParam pParam) :
    checkParam m_diag D P i = .ok m_diag ∧
    (∀ remaining, forParams D P (remaining + 1) i m_diag =
      forParams D P remaining (i + 1) m_diag) ∧
    (D.hasPrototype = true → P.hasPrototype = true →
      ∀ b final, VisitFunctionDecl m_diag D = .ok (b, final) →
        final.emitted = m_diag.emitted ++
          ((List.range D.getNumParams).filter (fun j => decide (j ≠ i))).flatMap
            (expectedAt D P)) := by
  have hstep := checkParam_of_not_mismatch m_diag D P i dParam pParam hd hp h
  refine ⟨hstep, fun remaining => by simp only [forParams, hstep], ?_⟩
  intro hD hP b final hv
  have hnone : expectedAt D P i = [] := by
    unfold expectedAt; rw [hd, hp]; simp [expectedReports, h]
  rw [(VisitFunctionDecl_ok m_diag D b final hv).2.1, flatMap_filter_ne _ i hnone]
  simp [expectedOutput, hD, hprev, hP]

/-! ## Claims -/

/-- C1 (P4, mismatch detection): let `D` have a prototype and a previous
declaration `P` that has a prototype and as many parameters as `D`, and let
`i` be an index at which both parameter names are non-empty, neither starts
with an underscore and the two names differ.  Then the visit of `D` runs the
iterations below `i`, and iteration `i` appends exactly the warning
"parameter name mismatch" at the location of the parameter of `D`, followed
immediately by the note "parameter in previous function declaration was here"
at the location of the parameter of `P`; the remaining iterations follow and
the visit returns.  The whole output of the visit is the output of the indices
below `i`, this pair, and the output of the indices above `i`. -/
theorem mismatch_detection (m_diag : DiagnosticsEngine) (D P : FunctionDecl) (i : Nat)
    (dParam pParam : ParmVarDecl)
    (hD : D.hasPrototype = true) (hprev : D.getPreviousDecl = some P)
    (hP : P.hasPrototype = true) (hcount : P.getNumParams = D.getNumParams)
    (hd : D.params[i]? = some dParam) (hp : P.params[i]? = some pParam)
    (hdn : StringRef.empty dParam.getName = false)
    (hpn : StringRef.empty pParam.getName = false)
    (hdu : ¬ startsWithUnderscore dParam.getName)
    (hpu : ¬ startsWithUnderscore pParam.getName)
    (hne : dParam.getName ≠ pParam.getName) :
    ∃ before after final,
      forParams D P i 0 m_diag = .ok before ∧
      checkParam before D P i = .ok after ∧
      after.emitted = before.emitted ++
        [⟨.Warning, "parameter name mismatch", dParam.getLocation⟩,
         ⟨.Note, "parameter in previous function declaration was here",
           pParam.getLocation⟩] ∧
      forParams D P (D.getNumParams - (i + 1)) (i + 1) after = .ok final ∧
      VisitFunctionDecl m_diag D = .ok (true, final) ∧
      final.emitted = m_diag.emitted ++ (List.range i).flatMap (expectedAt D P) ++
        [⟨.Warning, "parameter name mismatch", dParam.getLocation⟩,
         ⟨.Note, "parameter in previous function declaration was here",
           pParam.getLocation⟩] ++
        (List.range' (i + 1) (D.getNumParams - (i + 1))).flatMap (expectedAt D P) := by
  have hi : i < D.getNumParams := by
    have := (List.getElem?_eq_some.1 hd).1
    exact this
  have hsafe : ∀ j, j < D.getNumParams → indexInRange D P j :=
    fun j hj _ _ _ => by omega
  obtain ⟨before, hb, eb⟩ := forParams_in_range D P i 0 m_diag (by omega)
    (fun j _ hj => hsafe j (by omega))
  obtain ⟨after, ha, ea⟩ := checkParam_of_mismatch before D P i dParam pParam hd hp
    ⟨hdn, hpn, hdu, hpu, hne⟩
  obtain ⟨final, hf, ef⟩ := forParams_in_range D P (D.getNumParams - (i + 1)) (i + 1) after
    (by omega) (fun j _ hj => hsafe j (by omega))
  refine ⟨before, after, final, hb, ha, ea, hf, ?_, ?_⟩
  · rw [VisitFunctionDecl_compare m_diag D P hD hprev hP]
    have hsplit : D.getNumParams = i + (1 + (D.getNumParams - (i + 1))) := by omega
    have hloop : forParams D P D.getNumParams 0 m_diag = .ok final := by
      rw [hsplit, forParams_add, hb]
      simp only []
      rw [forParams_add]
      simp only [forParams, Nat.zero_add, ha]
      exact hf
    rw [hloop]
  · rw [ef, ea, eb, List.range_eq_range']
    simp [mismatchReports]

/-- Scenario 2 (`void f(int a); void f(int b) { }`) as an instance of C1: one
warning at `b`, one note at `a`. -/
theorem mismatch_detection_witness :
    namesMismatch (named "b" 21) (named "a" 11) ∧
    scenario2First.getNumParams = scenario2Second.getNumParams ∧
    ∃ before after final,
      forParams scenario2Second scenario2First 0 0 freshEngine = .ok before ∧
      checkParam before scenario2Second scenario2First 0 = .ok after ∧
      after.emitted = before.emitted ++
        [⟨.Warning, "parameter name mismatch", ⟨21⟩⟩,
         ⟨.Note, "parameter in previous function declaration was here", ⟨11⟩⟩] ∧
      forParams scenario2Second scenario2First
        (scenario2Second.getNumParams - (0 + 1)) (0 + 1) after = .ok final ∧
      VisitFunctionDecl freshEngine scenario2Second = .ok (true, final) ∧
      final.emitted = freshEngine.emitted ++
        (List.range 0).flatMap (expectedAt scenario2Second scenario2First) ++
        [⟨.Warning, "parameter name mismatch", ⟨21⟩⟩,
         ⟨.Note, "parameter in previous function declaration was here", ⟨11⟩⟩] ++
        (List.range' (0 + 1) (scenario2Second.getNumParams - (0 + 1))).flatMap
          (expectedAt scenario2Second scenario2First) :=
  ⟨by decide, rfl,
    mismatch_detection freshEngine scenario2Second scenario2First 0 (named "b" 21)
      (named "a" 11) rfl rfl rfl rfl rfl rfl rfl rfl (by decide) (by decide) (by decide)⟩

/-- C2 (P1, anonymity exemption): let `P` be the previous declaration of `D`
and `i` an index at which the name of the parameter of `D` or the name of the
parameter of `P` is absent.  Then iteration `i` of the loop leaves the engine
untouched, whatever the other name is: the loop goes on to index `i + 1` with
the same engine, and the output of a visit of `D` consists of the reports of
the indices other than `i`. -/
theorem anonymity_exemption (m_diag : DiagnosticsEngine) (D P : FunctionDecl) (i : Nat)
    (dParam pParam : ParmVarDecl) (hprev : D.getPreviousDecl = some P)
    (hd : D.params[i]? = some dParam) (hp : P.params[i]? = some pParam)
    (h : StringRef.empty dParam.getName = true ∨ StringRef.empty pParam.getName = true) :
    checkParam m_diag D P i = .ok m_diag ∧
    (∀ remaining, forParams D P (remaining + 1) i m_diag =
      forParams D P remaining (i + 1) m_diag) ∧
    (D.hasPrototype = true → P.hasPrototype = true →
      ∀ b final, VisitFunctionDecl m_diag D = .ok (b, final) →
        final.emitted = m_diag.emitted ++
          ((List.range D.getNumParams).filter (fun j => decide (j ≠ i))).flatMap
            (expectedAt D P)) := by
  apply exempt_index m_diag D P i dParam pParam hprev hd hp
  rintro ⟨hdn, hpn, _⟩
  rcases h with h | h
  · rw [h] at hdn; cases hdn
  · rw [h] at hpn; cases hpn

/-- Scenario 4 (`void f(int); void f(int x) { }`) as an instance of C2: the
parameter of the first declaration is anonymous, that of the second is named
`x`, and nothing is reported. -/
theorem anonymity_exemption_witness :
    (StringRef.empty (named "x" 21).getName = true ∨
      StringRef.empty (anonymous 11).getName = true) ∧
    checkParam freshEngine scenario4Second scenario4First 0 = .ok freshEngine ∧
    (∀ remaining, forParams scenario4Second scenario4First (remaining + 1) 0 freshEngine =
      forParams scenario4Second scenario4First remaining (0 + 1) freshEngine) ∧
    (scenario4Second.hasPrototype = true → scenario4First.hasPrototype = true →
      ∀ b final, VisitFunctionDecl freshEngine scenario4Second = .ok (b, final) →
        final.emitted = freshEngine.emitted ++
          ((List.range scenario4Second.getNumParams).filter (fun j => decide (j ≠ 0))).flatMap
            (expectedAt scenario4Second scenario4First)) :=
  ⟨Or.inr rfl,
    anonymity_exemption freshEngine scenario4Second scenario4First 0 (named "x" 21)
      (anonymous 11) rfl rfl rfl (Or.inr rfl)⟩

/-- C3 (P2, underscore exemption): let `P` be the previous declaration of `D`
and `i` an index at which the name of the parameter of `D` or the name of the
parameter of `P` starts with an underscore (the other name may be anything, in
particular non-empty and different).  Then iteration `i` of the loop leaves the
engine untouched: the loop goes on to index `i + 1` with the same engine, and
the output of a visit of `D` consists of the reports of the indices other than
`i`. -/
theorem underscore_exemption (m_diag : DiagnosticsEngine) (D P : FunctionDecl) (i : Nat)
    (dParam pParam : ParmVarDecl) (hprev : D.getPreviousDecl = some P)
    (hd : D.params[i]? = some dParam) (hp : P.params[i]? = some pParam)
    (h : startsWithUnderscore dParam.getName ∨ startsWithUnderscore pParam.getName) :
    checkParam m_diag D P i = .ok m_diag ∧
    (∀ remaining, forParams D P (remaining + 1) i m_diag =
      forParams D P remaining (i + 1) m_diag) ∧
    (D.hasPrototype = true → P.hasPrototype = true →
      ∀ b final, VisitFunctionDecl m_diag D = .ok (b, final) →
        final.emitted = m_diag.emitted ++
          ((List.range D.getNumParams).filter (fun j => decide (j ≠ i))).flatMap
            (expectedAt D P)) := by
  apply exempt_index m_diag D P i dParam pParam hprev hd hp
  rintro ⟨_, _, hdu, hpu, _⟩
  rcases h with h | h
  · exact hdu h
  · exact hpu h

/-- Scenario 3 (`void f(int _a); void f(int _b) { }`) as an instance of C3:
the names are non-empty and differ, both start with an underscore, and nothing
is reported. -/
theorem underscore_exemption_witness :
    (StringRef.empty (named "_b" 21).getName = false ∧
      StringRef.empty (named "_a" 11).getName = false ∧
      (named "_b" 21).getName ≠ (named "_a" 11).getName ∧
      (startsWithUnderscore (named "_b" 21).getName ∨
        startsWithUnderscore (named "_a" 11).getName)) ∧
    checkParam freshEngine scenario3Second scenario3First 0 = .ok freshEngine ∧
    (∀ remaining, forParams scenario3Second scenario3First (remaining + 1) 0 freshEngine =
      forParams scenario3Second scenario3First remaining (0 + 1) freshEngine) ∧
    (scenario3Second.hasPrototype = true → scenario3First.hasPrototype = true →
      ∀ b final, VisitFunctionDecl freshEngine scenario3Second = .ok (b, final) →
        final.emitted = freshEngine.emitted ++
          ((List.range scenario3Second.getNumParams).filter (fun j => decide (j ≠ 0))).flatMap
            (expectedAt scenario3Second scenario3First)) :=
  ⟨⟨rfl, rfl, by decide, Or.inl (by decide)⟩,
    underscore_exemption freshEngine scenario3Second scenario3First 0 (named "_b" 21)
      (named "_a" 11) rfl rfl rfl (Or.inl (by decide))⟩

/-- C4 (P3, identity): let `P` be the previous declaration of `D` and `i` an
index at which the two parameter names are the same text (in particular the
same non-empty text that does not start with an underscore).  Then iteration
`i` of the loop leaves the engine untouched: the loop goes on to index `i + 1`
with the same engine, and the output of a visit of `D` consists of the reports
of the indices other than `i`.  In particular, when every parameter of `D` has
in `P` a parameter of the same name at the same index, the visit of `D` returns
with the engine untouched. -/
theorem identity_no_report (m_diag : DiagnosticsEngine) (D P : FunctionDecl) (i : Nat)
    (dParam pParam : ParmVarDecl) (hprev : D.getPreviousDecl = some P)
    (hd : D.params[i]? = some dParam) (hp : P.params[i]? = some pParam)
    (hsame : dParam.getName = pParam.getName) :
    (checkParam m_diag D P i = .ok m_diag ∧
      (∀ remaining, forParams D P (remaining + 1) i m_diag =
        forParams D P remaining (i + 1) m_diag) ∧
      (D.hasPrototype = true → P.hasPrototype = true →
        ∀ b final, VisitFunctionDecl m_diag D = .ok (b, final) →
          final.emitted = m_diag.emitted ++
            ((List.range D.getNumParams).filter (fun j => decide (j ≠ i))).flatMap
              (expectedAt D P))) ∧
    ((∀ j, j < D.getNumParams → ∃ dj pj, D.params[j]? = some dj ∧ P.params[j]? = some pj ∧
        dj.getName = pj.getName) →
      VisitFunctionDecl m_diag D = .ok (true, m_diag)) := by
  refine ⟨exempt_index m_diag D P i dParam pParam hprev hd hp
    (fun hm => hm.2.2.2.2 hsame), ?_⟩
  intro hall
  have hloop : ∀ k j (d : DiagnosticsEngine), j + k ≤ D.getNumParams →
      forParams D P k j d = .ok d := by
    intro k
    induction k with
    | zero => intro j d _; rfl
    | succ k ih =>
      intro j d hjk
      obtain ⟨dj, pj, hdj, hpj, hnames⟩ := hall j (by omega)
      have hstep := checkParam_of_not_mismatch d D P j dj pj hdj hpj
        (fun hm => hm.2.2.2.2 hnames)
      simp only [forParams, hstep]
      exact ih (j + 1) d (by omega)
  by_cases hD : D.hasPrototype = true
  · by_cases hP : P.hasPrototype = true
    · rw [VisitFunctionDecl_compare m_diag D P hD hprev hP,
        hloop D.getNumParams 0 m_diag (by omega)]
    · simp [VisitFunctionDecl, hD, hprev, hP]
  · simp [VisitFunctionDecl, hD]

/-- Scenario 1 (`void f(int a); void f(int a) { }`) as an instance of C4: the
names match and the visit of the second declaration reports nothing. -/
theorem identity_no_report_witness :
    ((named "a" 21).getName = (named "a" 11).getName ∧
      StringRef.empty (named "a" 21).getName = false ∧
      ¬ startsWithUnderscore (named "a" 21).getName) ∧
    checkParam freshEngine scenario1Second scenario1First 0 = .ok freshEngine ∧
    VisitFunctionDecl freshEngine scenario1Second = .ok (true, freshEngine) :=
  have h := identity_no_report freshEngine scenario1Second scenario1First 0 (named "a" 21)
    (named "a" 11) rfl rfl rfl rfl
  ⟨⟨rfl, rfl, by decide⟩, h.1.1,
    h.2 (fun j hj => ⟨named "a" 21, named "a" 11, by
      have hj0 : j = 0 := by
        have : j < 1 := hj
        omega
      subst hj0
      exact ⟨rfl, rfl, rfl⟩⟩)⟩

/-- C5 (P5, no first declaration): the visit of a declaration without a
previous declaration returns the continue signal with the engine untouched,
whatever its prototype flag, its parameters and their number. -/
theorem first_declaration_silent (m_diag : DiagnosticsEngine) (hasPrototype : Bool)
    (params : List ParmVarDecl) :
    VisitFunctionDecl m_diag (.mk hasPrototype params none) = .ok (true, m_diag) := by
  cases hasPrototype <;> rfl

/-- C6 (P6, incomplete-prototype exemption): the visit of a declaration
without a prototype, and the visit of a declaration whose previous declaration
has no prototype, return the continue signal with the engine untouched,
whatever the parameters are.  An instance with one parameter on each side whose
names are present, not underscore-prefixed and different is given for both
cases. -/
theorem incomplete_prototype_silent :
    (∀ (m_diag : DiagnosticsEngine) (params : List ParmVarDecl)
        (prev : Option FunctionDecl),
      VisitFunctionDecl m_diag (.mk false params prev) = .ok (true, m_diag)) ∧
    (∀ (m_diag : DiagnosticsEngine) (hasPrototype : Bool) (params pparams : List ParmVarDecl)
        (before : Option FunctionDecl),
      VisitFunctionDecl m_diag (.mk hasPrototype params (some (.mk false pparams before)))
        = .ok (true, m_diag)) ∧
    (namesMismatch (named "b" 21) (named "a" 11) ∧
      VisitFunctionDecl freshEngine
        (.mk false [named "b" 21] (some (.mk true [named "a" 11] none)))
        = .ok (true, freshEngine) ∧
      VisitFunctionDecl freshEngine
        (.mk true [named "b" 21] (some (.mk false [named "a" 11] none)))
        = .ok (true, freshEngine)) := by
  refine ⟨fun m_diag params prev => rfl, fun m_diag hasPrototype params pparams before => ?_,
    by decide, rfl, rfl⟩
  cases hasPrototype <;> rfl

/-- The iteration reads the previous declaration through its parameters
only. -/
theorem checkParam_congr_prev (m_diag : DiagnosticsEngine) (D P Q : FunctionDecl) (i : Nat)
    (h : P.params = Q.params) : checkParam m_diag D P i = checkParam m_diag D Q i := by
  unfold checkParam FunctionDecl.getParamDecl
  rw [h]

/-- The loop reads the previous declaration through its parameters only. -/
theorem forParams_congr_prev (D P Q : FunctionDecl) (h : P.params = Q.params) (k i : Nat)
    (m_diag : DiagnosticsEngine) : forParams D P k i m_diag = forParams D Q k i m_diag := by
  induction k generalizing i m_diag with
  | zero => rfl
  | succ k ih =>
    simp only [forParams, checkParam_congr_prev m_diag D P Q i h]
    cases checkParam m_diag D Q i with
    | error f => rfl
    | ok d => exact ih (i + 1) d

/-- The loop reads the declaration through its parameters only. -/
theorem forParams_congr_decl (D E P : FunctionDecl) (h : D.params = E.params) (k i : Nat)
    (m_diag : DiagnosticsEngine) : forParams D P k i m_diag = forParams E P k i m_diag := by
  induction k generalizing i m_diag with
  | zero => rfl
  | succ k ih =>
    have hstep : checkParam m_diag D P i = checkParam m_diag E P i := by
      unfold checkParam FunctionDecl.getParamDecl
      rw [h]
    simp only [forParams, hstep]
    cases checkParam m_diag E P i with
    | error f => rfl
    | ok d => exact ih (i + 1) d

/-- C7 (P7, chain locality): the visit of a declaration `D` is determined by
`D` and its nearest previous declaration `P` (prototype flags and parameters,
that is names and locations): two chains that agree on `D` and on `P` and
differ in what comes before `P` give the same result from the same engine.  In
scenario 5 (names `a`, `b`, `b`) the visit of the third declaration reports
nothing, although its name differs from that of the first declaration; and
with names `a`, `b`, `a` the third declaration is reported against the second,
although its name is that of the first. -/
theorem chain_locality :
    (∀ (m_diag : DiagnosticsEngine) (hasPrototype : Bool) (params : List ParmVarDecl)
        (prevHasPrototype : Bool) (prevParams : List ParmVarDecl)
        (before before' : Option FunctionDecl),
      VisitFunctionDecl m_diag
          (.mk hasPrototype params (some (.mk prevHasPrototype prevParams before))) =
        VisitFunctionDecl m_diag
          (.mk hasPrototype params (some (.mk prevHasPrototype prevParams before')))) ∧
    VisitFunctionDecl freshEngine scenario5Third = .ok (true, freshEngine) ∧
    (∃ final, VisitFunctionDecl freshEngine chainThirdA = .ok (true, final) ∧
      final.emitted =
        [⟨.Warning, "parameter name mismatch", ⟨31⟩⟩,
         ⟨.Note, "parameter in previous function declaration was here", ⟨21⟩⟩]) := by
  refine ⟨?_, rfl, ⟨_, rfl, rfl⟩⟩
  intro m_diag hasPrototype params prevHasPrototype prevParams before before'
  cases hasPrototype
  · rfl
  cases prevHasPrototype
  · rfl
  rw [VisitFunctionDecl_compare m_diag
      (.mk true params (some (.mk true prevParams before))) (.mk true prevParams before)
      rfl rfl rfl,
    VisitFunctionDecl_compare m_diag
      (.mk true params (some (.mk true prevParams before'))) (.mk true prevParams before')
      rfl rfl rfl]
  have hn : (FunctionDecl.mk true params (some (.mk true prevParams before))).getNumParams =
      (FunctionDecl.mk true params (some (.mk true prevParams before'))).getNumParams := rfl
  rw [hn, forParams_congr_prev _ (.mk true prevParams before) (.mk true prevParams before') rfl,
    forParams_congr_decl (.mk true params (some (.mk true prevParams before)))
      (.mk true params (some (.mk true prevParams before'))) _ rfl]

/-! ## The walker -/

theorem compareAll_append (l₁ l₂ : List FunctionDecl) (m_diag : DiagnosticsEngine) :
    compareAll (l₁ ++ l₂) m_diag =
      match compareAll l₁ m_diag with
      | .error f => .error f
      | .ok d => compareAll l₂ d := by
  induction l₁ generalizing m_diag with
  | nil => rfl
  | cons fd rest ih =>
    simp only [List.cons_append, compareAll]
    cases VisitFunctionDecl m_diag fd with
    | error f => rfl
    | ok r => exact ih r.2

mutual
/-- The traversal of a declaration is the visit of the function declarations
reachable from it, in pre-order, and it signals to continue. -/
theorem TraverseDecl_eq_compareAll : ∀ (c : Decl) (m_diag : DiagnosticsEngine),
    TraverseDecl c m_diag =
      match compareAll c.functionDecls m_diag with
      | .error f => .error f
      | .ok d => .ok (true, d)
  | .function fd children, m_diag => by
    simp only [TraverseDecl, Decl.functionDecls, compareAll]
    cases hv : VisitFunctionDecl m_diag fd with
    | error f => rfl
    | ok r =>
      obtain ⟨b, d⟩ := r
      have hb : b = true := (VisitFunctionDecl_ok m_diag fd b d hv).1
      subst hb
      exact TraverseDecls_eq_compareAll children d
  | .other children, m_diag => by
    simp only [TraverseDecl, Decl.functionDecls]
    exact TraverseDecls_eq_compareAll children m_diag
/-- The traversal of a sequence of declarations is the visit of the function
declarations reachable from them, in pre-order, and it signals to continue. -/
theorem TraverseDecls_eq_compareAll : ∀ (cs : List Decl) (m_diag : DiagnosticsEngine),
    TraverseDecls cs m_diag =
      match compareAll (functionDeclsOfList cs) m_diag with
      | .error f => .error f
      | .ok d => .ok (true, d)
  | [], m_diag => rfl
  | c :: cs, m_diag => by
    simp only [TraverseDecls, functionDeclsOfList, compareAll_append]
    rw [TraverseDecl_eq_compareAll c m_diag]
    cases compareAll c.functionDecls m_diag with
    | error f => rfl
    | ok d => exact TraverseDecls_eq_compareAll cs d
end

/-- The handling of a declaration group is the visit of the function
declarations reachable from the group, in pre-order. -/
theorem HandleTopLevelDecl_eq_compareAll (m_diag : DiagnosticsEngine) (dg : List Decl) :
    HandleTopLevelDecl m_diag dg =
      match compareAll (functionDeclsOfList dg) m_diag with
      | .error f => .error f
      | .ok d => .ok (true, d) := by
  induction dg generalizing m_diag with
  | nil => rfl
  | cons c cs ih =>
    simp only [HandleTopLevelDecl, functionDeclsOfList, compareAll_append]
    rw [TraverseDecl_eq_compareAll c m_diag]
    cases compareAll c.functionDecls m_diag with
    | error f => rfl
    | ok d => exact ih d

/-- What a returning visit appends is what the comparison engine emits for
the declaration, whatever the engine held before. -/
theorem VisitFunctionDecl_ok_diagnosticsOf (m_diag : DiagnosticsEngine) (fd : FunctionDecl)
    (b : Bool) (final : DiagnosticsEngine) (h : VisitFunctionDecl m_diag fd = .ok (b, final)) :
    final.emitted = m_diag.emitted ++ diagnosticsOf fd := by
  obtain ⟨_, hem, hr⟩ := VisitFunctionDecl_ok m_diag fd b final h
  obtain ⟨d', hok, hem'⟩ := VisitFunctionDecl_in_range freshEngine fd hr
  have hdiag : diagnosticsOf fd = expectedOutput fd := by
    unfold diagnosticsOf
    rw [hok]
    simpa [freshEngine] using hem'
  rw [hem, hdiag]

theorem compareAll_ok (l : List FunctionDecl) (m_diag final : DiagnosticsEngine)
    (h : compareAll l m_diag = .ok final) :
    final.emitted = m_diag.emitted ++ l.flatMap diagnosticsOf := by
  induction l generalizing m_diag with
  | nil =>
    simp only [compareAll] at h
    injection h with h
    simp [h]
  | cons fd rest ih =>
    simp only [compareAll] at h
    cases hv : VisitFunctionDecl m_diag fd with
    | error f => rw [hv] at h; cases h
    | ok r =>
      obtain ⟨b, d⟩ := r
      rw [hv] at h
      rw [ih d h, VisitFunctionDecl_ok_diagnosticsOf m_diag fd b d hv]
      simp

theorem compareAll_in_range (l : List FunctionDecl) (m_diag : DiagnosticsEngine)
    (h : ∀ fd, fd ∈ l → declInRange fd) : ∃ final, compareAll l m_diag = .ok final := by
  induction l generalizing m_diag with
  | nil => exact ⟨m_diag, rfl⟩
  | cons fd rest ih =>
    obtain ⟨d, hok, _⟩ := VisitFunctionDecl_in_range m_diag fd (h fd (List.mem_cons_self _ _))
    obtain ⟨final, hfinal⟩ := ih d (fun g hg => h g (List.mem_cons_of_mem _ hg))
    exact ⟨final, by simp only [compareAll, hok]; exact hfinal⟩

/-- C8 (the walker never requests early termination): a visit that returns
has returned `true`, with or without reports, and the visit does return
whenever its comparisons are in range; the handling of a declaration group that
returns has returned `true`, and it does return whenever the comparisons of the
function declarations reachable from the group are in range. -/
theorem always_continue :
    (∀ (m_diag : DiagnosticsEngine) (fd : FunctionDecl) (b : Bool) (final : DiagnosticsEngine),
      VisitFunctionDecl m_diag fd = .ok (b, final) → b = true) ∧
    (∀ (m_diag : DiagnosticsEngine) (fd : FunctionDecl), declInRange fd →
      ∃ final, VisitFunctionDecl m_diag fd = .ok (true, final)) ∧
    (∀ (m_diag : DiagnosticsEngine) (dg : List Decl) (b : Bool) (final : DiagnosticsEngine),
      HandleTopLevelDecl m_diag dg = .ok (b, final) → b = true) ∧
    (∀ (m_diag : DiagnosticsEngine) (dg : List Decl),
      (∀ fd, fd ∈ functionDeclsOfList dg → declInRange fd) →
      ∃ final, HandleTopLevelDecl m_diag dg = .ok (true, final)) := by
  refine ⟨fun m_diag fd b final h => (VisitFunctionDecl_ok m_diag fd b final h).1,
    fun m_diag fd h => ?_, fun m_diag dg b final h => ?_, fun m_diag dg h => ?_⟩
  · obtain ⟨final, hok, _⟩ := VisitFunctionDecl_in_range m_diag fd h
    exact ⟨final, hok⟩
  · rw [HandleTopLevelDecl_eq_compareAll] at h
    cases hc : compareAll (functionDeclsOfList dg) m_diag with
    | error f => rw [hc] at h; cases h
    | ok d =>
      rw [hc] at h
      injection h with h
      injection h with h1 _
      exact h1.symm
  · obtain ⟨final, hfinal⟩ := compareAll_in_range (functionDeclsOfList dg) m_diag h
    exact ⟨final, by rw [HandleTopLevelDecl_eq_compareAll, hfinal]⟩

/-- Scenario 2 as an instance of C8: the visit of the second declaration
reports a mismatch and returns `true`, and so does the handling of the group
of the two declarations. -/
theorem always_continue_witness :
    declInRange scenario2Second ∧
    (∃ final, VisitFunctionDecl freshEngine scenario2Second = .ok (true, final)) ∧
    (∃ final, HandleTopLevelDecl freshEngine
      [.function scenario2First [], .function scenario2Second []] = .ok (true, final)) :=
  ⟨by decide, always_continue.2.1 freshEngine scenario2Second (by decide),
    always_continue.2.2.2 freshEngine
      [.function scenario2First [], .function scenario2Second []] (by decide)⟩

/-- C9 (walker coverage and order): the handling of a declaration group is
the run of the comparison engine on every function declaration reachable from
the group, nested ones included, once each, in group order and pre-order, each
on the engine left by the one before.  Hence the diagnostics of a handling that
returns are those held before followed by the concatenation, in that order, of
what the comparison engine emits for each of these declarations, and nothing
else; and the handling returns whenever all these comparisons are in range.
Walking the three declarations of scenario 5, at top level or nested, emits
exactly one warning and note pair. -/
theorem walker_coverage :
    (∀ (m_diag : DiagnosticsEngine) (dg : List Decl),
      HandleTopLevelDecl m_diag dg =
        match compareAll (functionDeclsOfList dg) m_diag with
        | .error f => .error f
        | .ok d => .ok (true, d)) ∧
    (∀ (m_diag : DiagnosticsEngine) (dg : List Decl) (b : Bool) (final : DiagnosticsEngine),
      HandleTopLevelDecl m_diag dg = .ok (b, final) →
        final.emitted = m_diag.emitted ++ (functionDeclsOfList dg).flatMap diagnosticsOf) ∧
    (∀ (m_diag : DiagnosticsEngine) (dg : List Decl),
      (∀ fd, fd ∈ functionDeclsOfList dg → declInRange fd) →
      ∃ final, HandleTopLevelDecl m_diag dg = .ok (true, final) ∧
        final.emitted = m_diag.emitted ++ (functionDeclsOfList dg).flatMap diagnosticsOf) ∧
    (∃ final, HandleTopLevelDecl freshEngine scenario5Group = .ok (true, final) ∧
      final.emitted =
        [⟨.Warning, "parameter name mismatch", ⟨21⟩⟩,
         ⟨.Note, "parameter in previous function declaration was here", ⟨11⟩⟩]) ∧
    (∃ final, HandleTopLevelDecl freshEngine scenario5Nested = .ok (true, final) ∧
      final.emitted =
        [⟨.Warning, "parameter name mismatch", ⟨21⟩⟩,
         ⟨.Note, "parameter in previous function declaration was here", ⟨11⟩⟩]) := by
  have hemitted : ∀ (m_diag : DiagnosticsEngine) (dg : List Decl) (b : Bool)
      (final : DiagnosticsEngine), HandleTopLevelDecl m_diag dg = .ok (b, final) →
      final.emitted = m_diag.emitted ++ (functionDeclsOfList dg).flatMap diagnosticsOf := by
    intro m_diag dg b final h
    rw [HandleTopLevelDecl_eq_compareAll] at h
    cases hc : compareAll (functionDeclsOfList dg) m_diag with
    | error f => rw [hc] at h; cases h
    | ok d =>
      rw [hc] at h
      injection h with h
      injection h with _ h2
      exact h2 ▸ compareAll_ok _ m_diag d hc
  refine ⟨HandleTopLevelDecl_eq_compareAll, hemitted, fun m_diag dg h => ?_,
    ⟨_, rfl, rfl⟩, ⟨_, rfl, rfl⟩⟩
  obtain ⟨final, hfinal⟩ := compareAll_in_range (functionDeclsOfList dg) m_diag h
  have hok : HandleTopLevelDecl m_diag dg = .ok (true, final) := by
    rw [HandleTopLevelDecl_eq_compareAll, hfinal]
  exact ⟨final, hok, hemitted m_diag dg true final hok⟩

/-- Scenario 5 as an instance of C9: the comparisons of its three
declarations are in range, so that the handling of the group returns. -/
theorem walker_coverage_witness :
    functionDeclsOfList scenario5Nested = [scenario5First, scenario5Second, scenario5Third] ∧
    (∀ fd, fd ∈ functionDeclsOfList scenario5Nested → declInRange fd) ∧
    ∃ final, HandleTopLevelDecl freshEngine scenario5Nested = .ok (true, final) ∧
      final.emitted = freshEngine.emitted ++
        (functionDeclsOfList scenario5Nested).flatMap diagnosticsOf :=
  ⟨rfl, by decide, walker_coverage.2.2.1 freshEngine scenario5Nested (by decide)⟩

/-- C10, as stated, fails: a declaration with a named parameter whose previous
declaration has a prototype and no parameter makes the visit read parameter 0
of the previous declaration, which is out of range. -/
theorem no_failure_counterexample :
    VisitFunctionDecl freshEngine extraParamDecl = .error .paramIndexOutOfRange := rfl

/-- C10, amended: for every declaration, with any prototype flags and any
parameter names on either side, the visit completes without a failure exactly
when its comparisons are in range, that is when every named parameter of the
declaration has a parameter at the same index in the previous declaration (as
far as both have a prototype); this is so in particular when the previous
declaration has at least as many parameters.  A completed visit returns `true`
and its effect is zero or more diagnostics appended to those emitted before.
The only failure there is, is the access out of range of a parameter of the
previous declaration: no access of a name and no report fails. -/
theorem completes_iff_in_range (m_diag : DiagnosticsEngine) (D : FunctionDecl) :
    ((∃ final, VisitFunctionDecl m_diag D = .ok (true, final) ∧
        ∃ out, final.emitted = m_diag.emitted ++ out) ↔ declInRange D) ∧
    ((∀ P, D.getPreviousDecl = some P → D.getNumParams ≤ P.getNumParams) →
      ∃ final, VisitFunctionDecl m_diag D = .ok (true, final) ∧
        ∃ out, final.emitted = m_diag.emitted ++ out) ∧
    (∀ f, VisitFunctionDecl m_diag D = .error f →
      f = .paramIndexOutOfRange ∧ ¬ declInRange D) := by
  have hin : declInRange D → ∃ final, VisitFunctionDecl m_diag D = .ok (true, final) ∧
      ∃ out, final.emitted = m_diag.emitted ++ out := by
    intro h
    obtain ⟨final, hok, hem⟩ := VisitFunctionDecl_in_range m_diag D h
    exact ⟨final, hok, _, hem⟩
  refine ⟨⟨?_, hin⟩, fun hle => hin ?_, fun f hf => VisitFunctionDecl_error m_diag D f hf⟩
  · rintro ⟨final, hok, _⟩
    exact (VisitFunctionDecl_ok m_diag D true final hok).2.2
  · intro _ P hprev _ i hi _ _ _
    exact lt_of_lt_of_le hi (hle P hprev)

/-- Scenario 2 as an instance of the amended C10: both declarations have one
parameter, its comparison is in range and the visit of the second declaration
completes; the comparison of a declaration with a parameter more than its
previous declaration is not in range. -/
theorem completes_iff_in_range_witness :
    declInRange scenario2Second ∧ ¬ declInRange extraParamDecl ∧
    ∃ final, VisitFunctionDecl freshEngine scenario2Second = .ok (true, final) ∧
      ∃ out, final.emitted = freshEngine.emitted ++ out :=
  ⟨by decide, by decide,
    (completes_iff_in_range freshEngine scenario2Second).1.2 (by decide)⟩

/-! ## The whole output -/

/-- A previous declaration with at least as many parameters keeps every
comparison in range. -/
theorem declInRange_of_le (D P : FunctionDecl) (hprev : D.getPreviousDecl = some P)
    (hle : D.getNumParams ≤ P.getNumParams) : declInRange D := by
  intro _ Q hQ _ i hi _ _ _
  have hPQ : P = Q := by rw [hprev] at hQ; injection hQ
  subst hPQ
  exact lt_of_lt_of_le hi hle

/-- With a prototype on both sides and the previous declaration at least as
long, the visit returns and appends the expected reports of every index. -/
theorem VisitFunctionDecl_of_le (m_diag : DiagnosticsEngine) (D P : FunctionDecl)
    (hD : D.hasPrototype = true) (hprev : D.getPreviousDecl = some P)
    (hP : P.hasPrototype = true) (hle : D.getNumParams ≤ P.getNumParams) :
    ∃ final, VisitFunctionDecl m_diag D = .ok (true, final) ∧
      final.emitted = m_diag.emitted ++ (List.range D.getNumParams).flatMap (expectedAt D P) := by
  obtain ⟨final, hok, hem⟩ := VisitFunctionDecl_in_range m_diag D
    (declInRange_of_le D P hprev hle)
  refine ⟨final, hok, ?_⟩
  rw [hem]
  simp [expectedOutput, hD, hprev, hP]

theorem expectedAt_eq_ite (D P : FunctionDecl) (i : Nat) (dParam pParam : ParmVarDecl)
    (hd : D.params[i]? = some dParam) (hp : P.params[i]? = some pParam) :
    expectedAt D P i = if namesMismatch dParam pParam then
      [⟨.Warning, "parameter name mismatch", dParam.getLocation⟩,
       ⟨.Note, "parameter in previous function declaration was here", pParam.getLocation⟩]
      else [] := by
  unfold expectedAt
  rw [hd, hp]
  rfl

theorem length_expectedAt (D P : FunctionDecl) (i : Nat) :
    (expectedAt D P i).length = if mismatchAt D P i = true then 2 else 0 := by
  unfold expectedAt mismatchAt
  cases D.params[i]? with
  | none => simp
  | some dParam =>
    cases P.params[i]? with
    | none => simp
    | some pParam =>
      by_cases h : namesMismatch dParam pParam <;> simp [expectedReports, mismatchReports, h]

theorem length_flatMap_expectedAt (D P : FunctionDecl) (l : List Nat) :
    (l.flatMap (expectedAt D P)).length = 2 * (l.filter (mismatchAt D P)).length := by
  induction l with
  | nil => rfl
  | cons i l ih =>
    rw [List.flatMap_cons, List.length_append, ih, length_expectedAt]
    by_cases h : mismatchAt D P i = true
    · rw [List.filter_cons_of_pos h, if_pos h, List.length_cons]; omega
    · rw [List.filter_cons_of_neg h, if_neg h]; omega

/-- C11 (reference characterisation of the whole output): let `D` have a
prototype and a previous declaration `P` that has a prototype and as many
parameters, `n`.  Then the visit of `D` returns, and the diagnostics it appends
are the concatenation, for `i` from `0` to `n - 1` in ascending order, of the
reports expected at `i`: the warning at the parameter of `D` followed by the
note at the parameter of `P` where both names are non-empty, neither starts
with an underscore and the names differ, and nothing at any other index.
Hence the number of diagnostics appended is twice the number of mismatching
indices.  In scenario 6 (names `a`, `b`, then `a`, `c`) the output is the one
pair of index 1. -/
theorem reference_output :
    (∀ (m_diag : DiagnosticsEngine) (D P : FunctionDecl),
      D.hasPrototype = true → D.getPreviousDecl = some P → P.hasPrototype = true →
      P.getNumParams = D.getNumParams →
      ∃ final, VisitFunctionDecl m_diag D = .ok (true, final) ∧
        final.emitted =
          m_diag.emitted ++ (List.range D.getNumParams).flatMap (expectedAt D P) ∧
        (∀ i, i < D.getNumParams → ∃ dParam pParam,
          D.params[i]? = some dParam ∧ P.params[i]? = some pParam ∧
          expectedAt D P i =
            if StringRef.empty dParam.getName = false ∧
                StringRef.empty pParam.getName = false ∧
                ¬ startsWithUnderscore dParam.getName ∧
                ¬ startsWithUnderscore pParam.getName ∧
                dParam.getName ≠ pParam.getName then
              [⟨.Warning, "parameter name mismatch", dParam.getLocation⟩,
               ⟨.Note, "parameter in previous function declaration was here",
                 pParam.getLocation⟩]
            else []) ∧
        final.emitted.length = m_diag.emitted.length +
          2 * ((List.range D.getNumParams).filter (mismatchAt D P)).length) ∧
    (∃ final, VisitFunctionDecl freshEngine scenario6Second = .ok (true, final) ∧
      final.emitted =
        [⟨.Warning, "parameter name mismatch", ⟨22⟩⟩,
         ⟨.Note, "parameter in previous function declaration was here", ⟨12⟩⟩] ∧
      expectedAt scenario6Second scenario6First 0 = [] ∧
      (List.range scenario6Second.getNumParams).filter
        (mismatchAt scenario6Second scenario6First) = [1]) := by
  refine ⟨?_, ⟨_, rfl, rfl, by decide, by decide⟩⟩
  intro m_diag D P hD hprev hP hcount
  obtain ⟨final, hok, hem⟩ := VisitFunctionDecl_of_le m_diag D P hD hprev hP (by omega)
  refine ⟨final, hok, hem, fun i hi => ?_, ?_⟩
  · have hid : i < D.params.length := hi
    have hip : i < P.params.length := by
      have : i < P.getNumParams := by omega
      exact this
    refine ⟨D.params[i], P.params[i], List.getElem?_eq_getElem hid,
      List.getElem?_eq_getElem hip, ?_⟩
    exact expectedAt_eq_ite D P i _ _ (List.getElem?_eq_getElem hid)
      (List.getElem?_eq_getElem hip)
  · rw [hem, List.length_append, length_flatMap_expectedAt]

/-- Scenario 6 as an instance of C11: both declarations have a prototype and
two parameters, and the visit of the second appends two diagnostics, for one
mismatching index. -/
theorem reference_output_witness :
    (scenario6Second.hasPrototype = true ∧
      scenario6Second.getPreviousDecl = some scenario6First ∧
      scenario6First.hasPrototype = true ∧
      scenario6First.getNumParams = scenario6Second.getNumParams) ∧
    ∃ final, VisitFunctionDecl freshEngine scenario6Second = .ok (true, final) ∧
      final.emitted = freshEngine.emitted ++
        (List.range scenario6Second.getNumParams).flatMap
          (expectedAt scenario6Second scenario6First) ∧
      final.emitted.length = freshEngine.emitted.length +
        2 * ((List.range scenario6Second.getNumParams).filter
          (mismatchAt scenario6Second scenario6First)).length :=
  match reference_output.1 freshEngine scenario6Second scenario6First rfl rfl rfl rfl with
  | ⟨final, hok, hem, _, hlen⟩ => ⟨⟨rfl, rfl, rfl, rfl⟩, final, hok, hem, hlen⟩

/-- The dereference of the identifier fails on parameters with an empty name
only. -/
theorem getName_empty_of_firstChar_error (p : ParmVarDecl) (f : Fault)
    (h : p.firstChar = .error f) : StringRef.empty p.getName = true := by
  unfold ParmVarDecl.firstChar at h
  unfold ParmVarDecl.getName
  cases hid : p.getIdentifier with
  | none => rfl
  | some s => rw [hid] at h; cases h

/-- C12 (safe indexing under the host's guarantee): let `D` and its previous
declaration `P` both have a prototype and the same number of parameters.  Then
for every index `i` below the parameter count of `D` the two accesses
`getParamDecl(i)` of the loop succeed, the first character of either name can
be read once the name was found non-empty, and the iteration succeeds from any
engine.  The read of a first character fails on parameters with an empty name
only, and an iteration over such a parameter returns before that read.  So
the loop succeeds from every index and engine, and the visit returns and does
not fail. -/
theorem safe_indexing (m_diag : DiagnosticsEngine) (D P : FunctionDecl)
    (hD : D.hasPrototype = true) (hprev : D.getPreviousDecl = some P)
    (hP : P.hasPrototype = true) (hcount : P.getNumParams = D.getNumParams) :
    (∀ i, i < D.getNumParams → ∃ dParam pParam,
      D.getParamDecl i = .ok dParam ∧ P.getParamDecl i = .ok pParam ∧
      (StringRef.empty dParam.getName = false → ∃ c, dParam.firstChar = .ok c) ∧
      (StringRef.empty pParam.getName = false → ∃ c, pParam.firstChar = .ok c) ∧
      ((∃ f, dParam.firstChar = .error f) ∨ (∃ f, pParam.firstChar = .error f) →
        ∀ d, checkParam d D P i = .ok d) ∧
      ∀ d, ∃ d', checkParam d D P i = .ok d') ∧
    (∀ (p : ParmVarDecl) (f : Fault), p.firstChar = .error f →
      StringRef.empty p.getName = true) ∧
    (∀ k i d, i + k ≤ D.getNumParams → ∃ d', forParams D P k i d = .ok d') ∧
    (∃ final, VisitFunctionDecl m_diag D = .ok (true, final)) ∧
    (∀ f, VisitFunctionDecl m_diag D ≠ .error f) := by
  have hsafe : ∀ j, j < D.getNumParams → indexInRange D P j :=
    fun j hj _ _ _ => by omega
  obtain ⟨final, hok, _⟩ := VisitFunctionDecl_of_le m_diag D P hD hprev hP (by omega)
  refine ⟨fun i hi => ?_, getName_empty_of_firstChar_error, fun k i d hk => ?_,
    ⟨final, hok⟩, fun f hf => by rw [hok] at hf; cases hf⟩
  · have hid : i < D.params.length := hi
    have hip : i < P.params.length := by
      have : i < P.getNumParams := by omega
      exact this
    have hd : D.params[i]? = some D.params[i] := List.getElem?_eq_getElem hid
    have hp : P.params[i]? = some P.params[i] := List.getElem?_eq_getElem hip
    refine ⟨D.params[i], P.params[i], getParamDecl_of_getElem? D i _ hd,
      getParamDecl_of_getElem? P i _ hp,
      fun hn => ⟨_, firstChar_of_named _ hn⟩, fun hn => ⟨_, firstChar_of_named _ hn⟩,
      fun hnull d => ?_, fun d => ?_⟩
    · apply checkParam_of_not_mismatch d D P i _ _ hd hp
      rintro ⟨hdn, hpn, _⟩
      rcases hnull with ⟨f, hf⟩ | ⟨f, hf⟩
      · rw [getName_empty_of_firstChar_error _ f hf] at hdn; cases hdn
      · rw [getName_empty_of_firstChar_error _ f hf] at hpn; cases hpn
    · obtain ⟨d', hd', _⟩ := checkParam_in_range d D P i hi (hsafe i hi)
      exact ⟨d', hd'⟩
  · obtain ⟨d', hd', _⟩ := forParams_in_range D P k i d hk
      (fun j _ hj => hsafe j (by omega))
    exact ⟨d', hd'⟩

/-- Scenario 4 as an instance of C12: one parameter on each side, that of the
previous declaration anonymous, so that the read of its first character would
fail; the visit returns. -/
theorem safe_indexing_witness :
    (scenario4Second.hasPrototype = true ∧
      scenario4Second.getPreviousDecl = some scenario4First ∧
      scenario4First.hasPrototype = true ∧
      scenario4First.getNumParams = scenario4Second.getNumParams ∧
      (anonymous 11).firstChar = .error .nullIdentifier) ∧
    (∃ final, VisitFunctionDecl freshEngine scenario4Second = .ok (true, final)) ∧
    (∀ f, VisitFunctionDecl freshEngine scenario4Second ≠ .error f) :=
  have h := safe_indexing freshEngine scenario4Second scenario4First rfl rfl rfl rfl
  ⟨⟨rfl, rfl, rfl, rfl, rfl⟩, h.2.2.2.1, h.2.2.2.2⟩

/-! ## Symmetry -/

theorem namesMismatch_comm (p q : ParmVarDecl) : namesMismatch p q ↔ namesMismatch q p := by
  unfold namesMismatch
  constructor <;> rintro ⟨h1, h2, h3, h4, h5⟩ <;> exact ⟨h2, h1, h4, h3, fun h => h5 h.symm⟩

theorem mismatchAt_comm (A B : FunctionDecl) (i : Nat) :
    mismatchAt A B i = mismatchAt B A i := by
  unfold mismatchAt
  cases A.params[i]? with
  | none => cases B.params[i]? <;> rfl
  | some a =>
    cases B.params[i]? with
    | none => rfl
    | some b => simp only [namesMismatch_comm a b]

/-- The reports expected at an index with the two declarations in the other
order are the same reports with the two locations exchanged. -/
theorem expectedAt_comm (A B : FunctionDecl) (i : Nat) :
    (expectedAt A B i = [] ∧ expectedAt B A i = []) ∨
    ∃ w n, expectedAt A B i = [w, n] ∧
      expectedAt B A i =
        [⟨w.level, w.message, n.location⟩, ⟨n.level, n.message, w.location⟩] := by
  unfold expectedAt
  cases A.params[i]? with
  | none => cases B.params[i]? <;> exact Or.inl ⟨rfl, rfl⟩
  | some a =>
    cases B.params[i]? with
    | none => exact Or.inl ⟨rfl, rfl⟩
    | some b =>
      by_cases h : namesMismatch a b
      · have h' : namesMismatch b a := (namesMismatch_comm a b).1 h
        refine Or.inr ⟨⟨.Warning, "parameter name mismatch", a.getLocation⟩,
          ⟨.Note, "parameter in previous function declaration was here", b.getLocation⟩,
          ?_, ?_⟩
        · simp only [expectedReports, h, if_true, mismatchReports]
        · simp only [expectedReports, h', if_true, mismatchReports]
      · have h' : ¬ namesMismatch b a := fun hb => h ((namesMismatch_comm a b).2 hb)
        exact Or.inl ⟨by simp only [expectedReports, h, if_false],
          by simp only [expectedReports, h', if_false]⟩

theorem exchangeLocations_flatMap (f g : Nat → List Diagnostic)
    (h : ∀ i, (f i = [] ∧ g i = []) ∨ ∃ w n, f i = [w, n] ∧
      g i = [⟨w.level, w.message, n.location⟩, ⟨n.level, n.message, w.location⟩])
    (l : List Nat) : exchangeLocations (l.flatMap f) = l.flatMap g := by
  induction l with
  | nil => rfl
  | cons i l ih =>
    rw [List.flatMap_cons, List.flatMap_cons]
    rcases h i with ⟨hf, hg⟩ | ⟨w, n, hf, hg⟩
    · rw [hf, hg]; exact ih
    · rw [hf, hg]
      show exchangeLocations (w :: n :: l.flatMap f) = _
      simp only [exchangeLocations, ih]
      rfl

theorem length_flatMap_comm (A B : FunctionDecl) (l : List Nat) :
    (l.flatMap (expectedAt A B)).length = (l.flatMap (expectedAt B A)).length := by
  rw [length_flatMap_expectedAt, length_flatMap_expectedAt]
  have hfun : mismatchAt A B = mismatchAt B A := funext (mismatchAt_comm A B)
  rw [hfun]

/-- C13 (symmetry of the mismatch rule): let `A` and `B` have a prototype and
the same number of parameters.  The visit of `A` with `B` as its previous
declaration and the visit of `B` with `A` as its previous declaration find a
mismatch at the same indices; both return, their outputs have the same length,
and each output is the other with the locations of the warning and of the note
of each pair exchanged. -/
theorem mismatch_symmetry (m_diag : DiagnosticsEngine) (A B : FunctionDecl)
    (hA : A.hasPrototype = true) (hB : B.hasPrototype = true)
    (hcount : A.getNumParams = B.getNumParams) :
    (∀ i, mismatchAt (withPrevious A B) B i = mismatchAt (withPrevious B A) A i) ∧
    ∃ finalA finalB outA outB,
      VisitFunctionDecl m_diag (withPrevious A B) = .ok (true, finalA) ∧
      finalA.emitted = m_diag.emitted ++ outA ∧
      VisitFunctionDecl m_diag (withPrevious B A) = .ok (true, finalB) ∧
      finalB.emitted = m_diag.emitted ++ outB ∧
      outA = (List.range A.getNumParams).flatMap (expectedAt (withPrevious A B) B) ∧
      outB = (List.range B.getNumParams).flatMap (expectedAt (withPrevious B A) A) ∧
      outA.length = outB.length ∧
      outB = exchangeLocations outA ∧ outA = exchangeLocations outB := by
  have hnA : (withPrevious A B).getNumParams = A.getNumParams := rfl
  have hnB : (withPrevious B A).getNumParams = B.getNumParams := rfl
  have heA : expectedAt (withPrevious A B) B = expectedAt A B := rfl
  have heB : expectedAt (withPrevious B A) A = expectedAt B A := rfl
  obtain ⟨finalA, hokA, hemA⟩ := VisitFunctionDecl_of_le m_diag (withPrevious A B) B hA rfl hB
    (by rw [hnA]; omega)
  obtain ⟨finalB, hokB, hemB⟩ := VisitFunctionDecl_of_le m_diag (withPrevious B A) A hB rfl hA
    (by rw [hnB]; omega)
  refine ⟨fun i => mismatchAt_comm A B i, finalA, finalB, _, _, hokA, hemA, hokB, hemB,
    by rw [hnA], by rw [hnB], ?_, ?_, ?_⟩
  · rw [hnA, hnB, heA, heB, hcount]
    exact length_flatMap_comm A B _
  · rw [hnA, hnB, heA, heB, hcount]
    exact (exchangeLocations_flatMap _ _ (expectedAt_comm A B) _).symm
  · rw [hnA, hnB, heA, heB, hcount]
    exact (exchangeLocations_flatMap _ _ (expectedAt_comm B A) _).symm

/-- Scenario 2 as an instance of C13: with `f(int b)` visited after
`f(int a)` the warning is at `b` and the note at `a`; with the two declarations
in the other order the warning is at `a` and the note at `b`. -/
theorem mismatch_symmetry_witness :
    (scenario2Second.hasPrototype = true ∧ scenario2First.hasPrototype = true ∧
      scenario2Second.getNumParams = scenario2First.getNumParams) ∧
    (∀ i, mismatchAt (withPrevious scenario2Second scenario2First) scenario2First i =
      mismatchAt (withPrevious scenario2First scenario2Second) scenario2Second i) ∧
    (∃ final, VisitFunctionDecl freshEngine (withPrevious scenario2Second scenario2First) =
        .ok (true, final) ∧
      final.emitted =
        [⟨.Warning, "parameter name mismatch", ⟨21⟩⟩,
         ⟨.Note, "parameter in previous function declaration was here", ⟨11⟩⟩]) ∧
    (∃ final, VisitFunctionDecl freshEngine (withPrevious scenario2First scenario2Second) =
        .ok (true, final) ∧
      final.emitted =
        [⟨.Warning, "parameter name mismatch", ⟨11⟩⟩,
         ⟨.Note, "parameter in previous function declaration was here", ⟨21⟩⟩]) :=
  ⟨⟨rfl, rfl, rfl⟩,
    (mismatch_symmetry freshEngine scenario2Second scenario2First rfl rfl rfl).1,
    ⟨_, rfl, rfl⟩, ⟨_, rfl, rfl⟩⟩

end ParamCheck
